import Mathlib

/-!
Verification development for the fhir-inspect tool (src/fhir_inspect.py).

The file embeds the two algorithmic cores of the script:

* the structural profiler of -inspect_resource-: the recursive helper
  -process_entry- (with its inner helper -store_item-) that folds decoded
  JSON records into the insertion-ordered -items- dictionary, and the
  renderer -build_tree- that turns that dictionary into a tree view while
  sorting and truncating value histograms;

* the paginated fetch loop -fetch_resources-: cursor following via the
  "next" relation, the per-page delivery of entries to the record sink,
  the record limit, and the error classification of the loop.

Python dictionaries preserve insertion order, so dictionaries are embedded
as association lists; mutation is embedded as explicit state passing, and
a Python exception that the code does not catch is embedded as -none-
(for the recursive folding) or as a distinguished -raised- outcome (for
the fetch loop).
-/

namespace FhirInspect

/-- A decoded JSON-like value, as produced by -entry.resource.as_json()-
in the source.  A scalar (string, number, boolean, null) is carried
together with its Python -str()- rendering, which is the only thing
-process_entry- ever uses of a scalar. -/
inductive JValue where
  | prim (s : String)
  | arr (elems : List JValue)
  | obj (fields : List (String × JValue))

/-- A node of the frequency tree stored in the -items- dictionary of
-inspect_resource- (lines 281285 of the source): either a nested
dictionary (a Branch) or a Python list -[count, histogram]- (a Leaf). -/
inductive Node where
  | branch (children : List (String × Node))
  | leaf (count : Nat) (hist : List (String × Nat))

/-- Python dictionary lookup -d[k]- / membership -k in d- for an
insertion-ordered dictionary embedded as an association list. -/
def dictGet {α : Type} (k : String) : List (String × α) → Option α
  | [] => none
  | (k2, v) :: rest => if k2 == k then some v else dictGet k rest

/-- Python dictionary assignment -d[k] = v-: replaces the value in place
when the key is present (keeping its insertion position), appends the new
pair otherwise. -/
def dictSet {α : Type} (k : String) (v : α) : List (String × α) → List (String × α)
  | [] => [(k, v)]
  | (k2, v2) :: rest => if k2 == k then (k2, v) :: rest else (k2, v2) :: dictSet k v rest

/-- Lines 302305 of the source: increment the count stored under a
string key of the value histogram, inserting the key with count 1 when it
is not yet present. -/
def histIncr (s : String) : List (String × Nat) → List (String × Nat)
  | [] => [(s, 1)]
  | (k, n) :: rest => if k == s then (k, n + 1) :: rest else (k, n) :: histIncr s rest

/-- Limit constant -max_item_str_len- (line 276 of the source). -/
def max_item_str_len : Nat := 50

/-- Limit constant -max_item_count- (line 277 of the source). -/
def max_item_count : Nat := 50

mutual

/-- Python -str()- of a decoded JSON value.  For a scalar this is the
rendering carried by the -prim- constructor.  For containers the exact
Python rendering (repr of the parts, quoting of keys) is abstracted to a
fixed deterministic format; no claim depends on its details, only on the
length of the resulting string for scalars. -/
def pyStr : JValue → String
  | .prim s => s
  | .arr es => "[" ++ pyStrJoin es ++ "]"
  | .obj fs => "\x7b" ++ pyStrFields fs ++ "\x7d"

/-- Comma-separated rendering of the elements of a list value. -/
def pyStrJoin : List JValue → String
  | [] => ""
  | [e] => pyStr e
  | e :: rest => pyStr e ++ ", " ++ pyStrJoin rest

/-- Comma-separated rendering of the fields of an object value. -/
def pyStrFields : List (String × JValue) → String
  | [] => ""
  | [(k, v)] => k ++ ": " ++ pyStr v
  | (k, v) :: rest => k ++ ": " ++ pyStr v ++ ", " ++ pyStrFields rest

end

/-- Python string slice -s[:n]-: the first n characters. -/
def strTake (s : String) (n : Nat) : String := String.mk (s.data.take n)

/-- Lines 300301 of the source: the stringified subvalue is truncated to
its first -max_item_str_len- characters with "..." appended, but only when
its length exceeds -max_item_str_len + 3-. -/
def truncateItemStr (s : String) : String :=
  if s.length > max_item_str_len + 3 then strTake s max_item_str_len ++ "..." else s

/-- Lines 291305 of the source, the helper -store_item- of
-process_entry-.  The count block -item_store_si[key_si][0] += 1- raises a
KeyError when the established entry is a dictionary (a Branch), embedded
here as -none-.  When -inspect_items- is set, the histogram of the leaf is
updated with the truncated string form of the subvalue. -/
def store_item (inspect_items : Bool) (key : String) (subvalue : JValue)
    (item_store : List (String × Node)) : Option (List (String × Node)) :=
  match dictGet key item_store with
  | some (.branch _) => none
  | some (.leaf c h) =>
    let h2 := if inspect_items then histIncr (truncateItemStr (pyStr subvalue)) h else h
    some (dictSet key (.leaf (c + 1) h2) item_store)
  | none =>
    let h2 := if inspect_items then histIncr (truncateItemStr (pyStr subvalue)) [] else []
    some (dictSet key (.leaf 1 h2) item_store)

/-- Whether a value is the empty Python list -[]-. -/
def isEmptyArr : JValue → Bool
  | .arr [] => true
  | _ => false

mutual

/-- Lines 287322 of the source, -process_entry-: fold the fields of one
decoded record (or nested object) into the dictionary -item_store-.  A
value that is not a list is wrapped into a one-element list (line 309);
each element is then folded independently under the same field name. -/
def process_entry (inspect_items : Bool) (max_level : Nat) :
    List (String × JValue) → List (String × Node) → Nat → Option (List (String × Node))
  | [], item_store, _ => some item_store
  | (key, value) :: rest, item_store, level =>
    let step :=
      match value with
      | .arr es => processElems inspect_items max_level key es item_store level
      | other => processElem inspect_items max_level key other item_store level
    match step with
    | none => none
    | some store2 => process_entry inspect_items max_level rest store2 level

/-- The inner -for subvalue in value- loop of -process_entry- (line 311):
fold the elements of a list value one after the other. -/
def processElems (inspect_items : Bool) (max_level : Nat) (key : String) :
    List JValue → List (String × Node) → Nat → Option (List (String × Node))
  | [], item_store, _ => some item_store
  | e :: es, item_store, level =>
    match processElem inspect_items max_level key e item_store level with
    | none => none
    | some store2 => processElems inspect_items max_level key es store2 level

/-- Lines 312322 of the source: fold a single element.  A nested object
below the nesting limit is recursed into as a Branch (created on first
occurrence); recursing into an established Leaf means Python recursing
into the list -[count, histogram]-, which silently does nothing when every
field of the nested object has the empty list as value, and otherwise
raises a TypeError at the first real element (embedded as -none-).  Any
other element, and a nested object at or beyond the limit, is passed to
-store_item-. -/
def processElem (inspect_items : Bool) (max_level : Nat) (key : String) :
    JValue → List (String × Node) → Nat → Option (List (String × Node))
  | .obj fs, item_store, level =>
    if level < max_level then
      match dictGet key item_store with
      | some (.branch children) =>
        match process_entry inspect_items max_level fs children (level + 1) with
        | none => none
        | some ch2 => some (dictSet key (.branch ch2) item_store)
      | some (.leaf _ _) =>
        if fs.all (fun f => isEmptyArr f.2) then some item_store else none
      | none =>
        match process_entry inspect_items max_level fs [] (level + 1) with
        | none => none
        | some ch2 => some (dictSet key (.branch ch2) item_store)
    else store_item inspect_items key (.obj fs) item_store
  | e, item_store, _level => store_item inspect_items key e item_store

end

/-! ### Tree rendering (build_tree, lines 331349 of the source) -/

/-- Python -sorted(h, key=lambda n: n[1], reverse=True)- is a stable sort;
insertion of the head element in front of ties realises the same stable
descending-by-count order. -/
def insertByCountDesc (x : String × Nat) : List (String × Nat) → List (String × Nat)
  | [] => [x]
  | y :: ys => if y.2 ≤ x.2 then x :: y :: ys else y :: insertByCountDesc x ys

/-- Stable sort of a histogram by descending occurrence count, the order
produced by line 341 of the source. -/
def sortByCountDesc : List (String × Nat) → List (String × Nat)
  | [] => []
  | x :: xs => insertByCountDesc x (sortByCountDesc xs)

/-- Line 341 of the source: sort the histogram by count in descending
order and keep the first -maxEntries- entries.  The source instantiates
-maxEntries- with the constant -max_item_count-. -/
def renderHist (maxEntries : Nat) (h : List (String × Nat)) : List (String × Nat) :=
  (sortByCountDesc h).take maxEntries

/-- The structured content of the tree view built by -build_tree-: a Leaf
becomes one line with the key, the count and (when item inspection is on)
the rendered histogram entries; a Branch becomes a labeled group. -/
inductive RLine where
  | leafLine (label : String) (count : Nat) (vals : Option (List (String × Nat)))
  | branchLine (label : String) (children : List RLine)

/-- Lines 331349 of the source, -build_tree-.  Along with the rendered
view it returns the state of the -items- dictionary after the walk: line
341 assigns the sorted and truncated histogram back into the leaf list
(-value[1] = dict(sorted(...)[:max_item_count])-), so rendering with
-inspect_items- set also rewrites the histograms inside the tree. -/
def build_tree (inspect_items : Bool) : List (String × Node) → List RLine × List (String × Node)
  | [] => ([], [])
  | (key, .leaf c h) :: rest =>
    let h2 := if inspect_items then renderHist max_item_count h else h
    let r := build_tree inspect_items rest
    (.leafLine key c (if inspect_items then some h2 else none) :: r.1, (key, .leaf c h2) :: r.2)
  | (key, .branch ch) :: rest =>
    let rc := build_tree inspect_items ch
    let r := build_tree inspect_items rest
    (.branchLine key rc.1 :: r.1, (key, .branch rc.2) :: r.2)

/-- Rewrite every leaf histogram of a tree with -f-, keeping keys, counts
and the Branch/Leaf structure intact. -/
def mapLeafHist (f : List (String × Nat) → List (String × Nat)) :
    List (String × Node) → List (String × Node)
  | [] => []
  | (key, .leaf c h) :: rest => (key, .leaf c (f h)) :: mapLeafHist f rest
  | (key, .branch ch) :: rest => (key, .branch (mapLeafHist f ch)) :: mapLeafHist f rest

/-- Erase every histogram of a tree, keeping keys, counts and the
Branch/Leaf structure: the part of the tree that rendering never touches. -/
def eraseHists : List (String × Node) → List (String × Node) :=
  mapLeafHist (fun _ => [])

/-- Histogram length of the first entry of a tree when it is a leaf; used
to tell two concrete trees apart. -/
def headHistLen : List (String × Node) → Nat
  | (_, .leaf _ h) :: _ => h.length
  | _ => 0

/-! ### Cursor derivation (lines 182191 of the source) -/

/-- Python -s.split(sep)- on character lists: repeatedly cut at the
leftmost occurrence of -sep-.  Python raises ValueError on an empty
separator; this embedding returns -[s]- in that case, and every statement
about it assumes a non-empty separator. -/
def pySplit (sep : List Char) : List Char → List (List Char)
  | [] => [[]]
  | c :: rest =>
    if (!sep.isEmpty) && sep.isPrefixOf (c :: rest) then
      [] :: pySplit sep (rest.drop (sep.length - 1))
    else
      match pySplit sep rest with
      | [] => [[c]]
      | hd :: tl => (c :: hd) :: tl
termination_by l => l.length
decreasing_by
  · simp only [List.length_cons, List.length_drop]
    omega
  · simp only [List.length_cons]
    omega

/-- Whether -sep- occurs as a contiguous run inside -s-. -/
def occursSub (sep : List Char) : List Char → Bool
  | [] => false
  | c :: rest => sep.isPrefixOf (c :: rest) || occursSub sep rest

/-- Python -s.lstrip("/")-: remove every leading path separator. -/
def lstrip_slash (s : List Char) : List Char := s.dropWhile (fun c => c == '/')

/-- Line 188 of the source on character lists:
-link.url.split(base)[-1].lstrip("/")-. -/
def derive_next_chars (url base : List Char) : List Char :=
  lstrip_slash ((pySplit base url).getLastD [])

/-- Line 188 of the source: the new cursor derived from the absolute
"next" link and the implementation base URL of the capability statement. -/
def derive_next_url (url base : String) : String :=
  String.mk (derive_next_chars url.data base.data)

/-! ### The fetch loop (fetch_resources, lines 100195 of the source)

The loop is embedded against a script: the list of responses the server
gives to the successive page requests, each either a decoded bundle, a
FHIRValidationError, or some other exception.  Records are abstracted by a
type parameter; the record sink is observed through the ordered trace of
records delivered to it, which determines every sink completely. -/

/-- One decoded bundle: the optional entry list and the optional link
list (both are absent-able fields of a FHIR bundle). -/
structure Page (α : Type) where
  entry : Option (List α)
  link : Option (List (String × String))

/-- The outcome of one -bundle_read_from- call inside the loop (lines
154161 of the source): a decoded bundle, a FHIRValidationError (caught,
breaks the loop), or any other exception (re-raised). -/
inductive PageResult (α : Type) where
  | ok (bundle : Page α)
  | vError
  | fatal

/-- The observable state of one -fetch_resources- run: the -received-
counter, the ordered trace of records delivered to -function_to_call-,
the trace of -live.update- progress notifications (one count per page
that carried entries), and the cursors requested so far in order. -/
structure LoopState (α : Type) where
  received : Nat
  delivered : List α
  progress : List Nat
  visited : List String

/-- How the -while True- loop of lines 152191 ends: no "next" relation
(line 191), the record limit (line 180), or a validation error
(line 159).  Each of these is a -break-; the code then prints the final
count and returns status 0. -/
inductive LoopExit where
  | noNext
  | limitReached
  | validationFailed

/-- The result of running the loop against a script: a normal loop exit,
an uncaught exception, or -outOfScript-, the model artifact for a script
shorter than the number of requests the loop makes (the pending cursor is
recorded). -/
inductive FetchOutcome (α : Type) where
  | done (exit : LoopExit) (st : LoopState α)
  | raised (st : LoopState α)
  | outOfScript (st : LoopState α) (pending : String)

/-- First "next" relation of a link list (lines 186189: the scan takes
the first matching link and breaks). -/
def nextUrlOf (links : List (String × String)) : Option String :=
  (links.find? (fun l => l.1 == "next")).map (fun l => l.2)

/-- Result of the link scan of lines 185191: -bundle.link- being absent
makes the -for- loop raise a TypeError (crash); otherwise either no
"next" relation is found (loop ends) or the new cursor is derived. -/
inductive LinkScan where
  | crash
  | ended
  | next (cursor : String)

/-- Lines 185191 of the source: scan the links of a bundle for the
"next" relation and derive the new cursor from it. -/
def scanLinks (base : String) (olinks : Option (List (String × String))) : LinkScan :=
  match olinks with
  | none => .crash
  | some links =>
    match nextUrlOf links with
    | none => .ended
    | some u => .next (derive_next_url u base)

/-- Line 178 of the source: -limit is not None and limit <= received-. -/
def limitHit (limit : Option Nat) (received : Nat) : Bool :=
  match limit with
  | none => false
  | some l => l ≤ received

/-- Lines 152191 of the source, the -while True- loop of
-fetch_resources-, consuming one scripted response per iteration.  The
requested cursor is recorded, then: a validation error breaks the loop, a
fatal error propagates, and a decoded bundle with entries present has all
its entries delivered in page order and the -received- counter increased
by the page size before the limit is tested; in every non-breaking case
the link scan decides whether and where the loop continues. -/
def fetchLoop {α : Type} (base : String) (limit : Option Nat) :
    List (PageResult α) → String → LoopState α → FetchOutcome α
  | [], cursor, st => .outOfScript st cursor
  | resp :: rest, cursor, st =>
    let st1 : LoopState α := { st with visited := st.visited ++ [cursor] }
    match resp with
    | .vError => .done .validationFailed st1
    | .fatal => .raised st1
    | .ok page =>
      match page.entry with
      | some es =>
        let st2 : LoopState α :=
          { st1 with
            received := st1.received + es.length
            delivered := st1.delivered ++ es
            progress := st1.progress ++ [st1.received + es.length] }
        if limitHit limit st2.received then .done .limitReached st2
        else
          match scanLinks base page.link with
          | .crash => .raised st2
          | .ended => .done .noNext st2
          | .next c2 => fetchLoop base limit rest c2 st2
      | none =>
        match scanLinks base page.link with
        | .crash => .raised st1
        | .ended => .done .noNext st1
        | .next c2 => fetchLoop base limit rest c2 st1

/-- The outcome of the count query of lines 127133: an exception (caught,
-fetch_resources- returns 1) or the decoded -bundle.total- (an optional
number). -/
inductive CountOutcome where
  | excp
  | ok (total : Option Nat)

/-- What a -fetch_resources- call amounts to: an early status-code return
before the loop, a loop exit followed by the final status print and
-return 0-, an uncaught exception, or the script-exhaustion artifact. -/
inductive FetchResult (α : Type) where
  | earlyReturn (status : Nat)
  | completed (status : Nat) (exit : LoopExit) (st : LoopState α)
  | raised (st : LoopState α)
  | outOfScript (st : LoopState α) (pending : String)

/-- Lines 100195 of the source, -fetch_resources-: the count query (an
exception or a zero total returns status 1), then the fetch loop, and
after any loop break the final result print and -return 0-. -/
def fetch_resources {α : Type} (base resource_type : String) (limit : Option Nat)
    (count : CountOutcome) (script : List (PageResult α)) : FetchResult α :=
  match count with
  | .excp => .earlyReturn 1
  | .ok total =>
    if total == some 0 then .earlyReturn 1
    else
      match fetchLoop base limit script resource_type ⟨0, [], [], []⟩ with
      | .done e st => .completed 0 e st
      | .raised st => .raised st
      | .outOfScript st p => .outOfScript st p

/-- The status code a -fetch_resources- call returns, when it returns. -/
def resultStatus {α : Type} : FetchResult α → Option Nat
  | .earlyReturn s => some s
  | .completed s _ _ => some s
  | _ => none

/-- The record trace delivered to the sink, for a completed run. -/
def resultDelivered {α : Type} : FetchResult α → Option (List α)
  | .completed _ _ st => some st.delivered
  | _ => none

/-- The received counter of a completed run. -/
def resultReceived {α : Type} : FetchResult α → Option Nat
  | .completed _ _ st => some st.received
  | _ => none

/-- The loop exit of a completed run. -/
def resultExit {α : Type} : FetchResult α → Option LoopExit
  | .completed _ e _ => some e
  | _ => none

/-- The number of entries a scripted response delivers (zero for an
absent entry list and for non-bundle responses). -/
def okEntriesLen {α : Type} : PageResult α → Nat
  | .ok p => (p.entry.getD []).length
  | _ => 0

/-- A script of successfully decoded bundles given as (entry list, link
list) pairs, every bundle with its link list present. -/
def mkScript {α : Type} (ps : List (Option (List α) × List (String × String))) :
    List (PageResult α) :=
  ps.map (fun p => .ok ⟨p.1, some p.2⟩)

/-- The cursors a run over the bundles -ps- requests, starting at -c-:
each bundle with a "next" relation contributes the cursor derived from
its link for the following request. -/
def chainCursors {α : Type} (base : String) :
    String → List (Option (List α) × List (String × String)) → List String
  | _, [] => []
  | c, p :: rest =>
    match nextUrlOf p.2 with
    | some u => c :: chainCursors (α := α) base (derive_next_url u base) rest
    | none => [c]

/-! ### Concrete fixtures used by counterexamples -/

/-- A histogram with 51 distinct keys (the 51 strings of 0 to 50 repeated
characters), one more entry than -max_item_count-. -/
def bigHist : List (String × Nat) :=
  (List.range 51).map (fun i => (String.mk (List.replicate i 'a'), 1))

/-- A string of 51 characters: longer than -max_item_str_len- but not
longer than -max_item_str_len + 3-. -/
def s51 : String := String.mk (List.replicate 51 'a')

/-- A script of three bundles of five records each, every bundle carrying
a "next" link. -/
def limitScript : List (PageResult Nat) :=
  [.ok ⟨some [0, 1, 2, 3, 4], some [("next", "u1")]⟩,
   .ok ⟨some [5, 6, 7, 8, 9], some [("next", "u2")]⟩,
   .ok ⟨some [10, 11, 12, 13, 14], some [("next", "u3")]⟩]

/-! ## Lemmas about the histogram sort of build_tree -/

/-- Inserting with -insertByCountDesc- is a permutation of consing. -/
theorem insertByCountDesc_perm (x : String × Nat) (l : List (String × Nat)) :
    (insertByCountDesc x l).Perm (x :: l) := by
  induction l with
  | nil => simp [insertByCountDesc]
  | cons y ys ih =>
    by_cases h : y.2 ≤ x.2
    · simp [insertByCountDesc, h]
    · simp only [insertByCountDesc, if_neg h]
      exact (ih.cons y).trans (List.Perm.swap x y ys)

/-- -insertByCountDesc- preserves the descending-by-count order. -/
theorem insertByCountDesc_pairwise (x : String × Nat) (l : List (String × Nat))
    (hl : l.Pairwise (fun a b => b.2 ≤ a.2)) :
    (insertByCountDesc x l).Pairwise (fun a b => b.2 ≤ a.2) := by
  induction l with
  | nil => simp [insertByCountDesc]
  | cons y ys ih =>
    rcases List.pairwise_cons.mp hl with ⟨hy, hys⟩
    by_cases h : y.2 ≤ x.2
    · simp only [insertByCountDesc, if_pos h]
      refine List.pairwise_cons.mpr ⟨?_, hl⟩
      intro z hz
      rcases List.mem_cons.mp hz with rfl | hz2
      · exact h
      · exact (hy z hz2).trans h
    · simp only [insertByCountDesc, if_neg h]
      refine List.pairwise_cons.mpr ⟨?_, ih hys⟩
      intro z hz
      rcases List.mem_cons.mp ((insertByCountDesc_perm x ys).mem_iff.mp hz) with rfl | hz2
      · exact Nat.le_of_not_le h
      · exact hy z hz2

/-- Filtering one tie class out of an -insertByCountDesc- insertion: the
inserted element lands in front of the elements with its own count. -/
theorem insertByCountDesc_filter (x : String × Nat) (l : List (String × Nat)) (n : Nat) :
    (insertByCountDesc x l).filter (fun p => p.2 == n)
      = (if x.2 == n then [x] else []) ++ l.filter (fun p => p.2 == n) := by
  induction l with
  | nil => simp [insertByCountDesc, List.filter_cons]
  | cons y ys ih =>
    by_cases h : y.2 ≤ x.2
    · simp only [insertByCountDesc, if_pos h, List.filter_cons]
      by_cases hx : (x.2 == n) = true
      · simp [hx]
      · simp [hx]
    · have hlt : x.2 < y.2 := Nat.lt_of_not_le h
      simp only [insertByCountDesc, if_neg h, List.filter_cons, ih]
      by_cases hx : (x.2 == n) = true
      · have hxn : x.2 = n := eq_of_beq hx
        have hyn : (y.2 == n) = false := beq_eq_false_iff_ne.mpr (by omega)
        simp [hx, hyn]
      · simp [hx]

/-- The histogram sort of line 341 is a permutation of the histogram. -/
theorem sortByCountDesc_perm (l : List (String × Nat)) : (sortByCountDesc l).Perm l := by
  induction l with
  | nil => simp [sortByCountDesc]
  | cons x xs ih =>
    exact (insertByCountDesc_perm x (sortByCountDesc xs)).trans (ih.cons x)

/-- The histogram sort of line 341 orders counts in descending order. -/
theorem sortByCountDesc_pairwise (l : List (String × Nat)) :
    (sortByCountDesc l).Pairwise (fun a b => b.2 ≤ a.2) := by
  induction l with
  | nil => simp [sortByCountDesc]
  | cons x xs ih => exact insertByCountDesc_pairwise x (sortByCountDesc xs) ih

/-- Stability of the histogram sort: within one tie class (one occurrence
count) the sorted histogram keeps the original insertion order. -/
theorem sortByCountDesc_filter (l : List (String × Nat)) (n : Nat) :
    (sortByCountDesc l).filter (fun p => p.2 == n) = l.filter (fun p => p.2 == n) := by
  induction l with
  | nil => simp [sortByCountDesc]
  | cons x xs ih =>
    by_cases hx : (x.2 == n) = true
    · simp [sortByCountDesc, insertByCountDesc_filter, ih, List.filter_cons, hx]
    · simp [sortByCountDesc, insertByCountDesc_filter, ih, List.filter_cons, hx]

/-! ## Lemmas about build_tree -/

/-- The state of the -items- dictionary after -build_tree- has walked it:
every leaf histogram is replaced by its sorted and truncated rendering
when item inspection is on, and is untouched otherwise. -/
theorem build_tree_snd (i : Bool) (store : List (String × Node)) :
    (build_tree i store).2
      = mapLeafHist (fun h => if i then renderHist max_item_count h else h) store := by
  induction store using build_tree.induct i with
  | case1 => simp [build_tree, mapLeafHist]
  | case2 key c h rest ih => simp [build_tree, mapLeafHist, ih]
  | case3 key ch rest ih1 ih2 => simp [build_tree, mapLeafHist, ih1, ih2]

/-- Rewriting histograms twice composes. -/
theorem mapLeafHist_comp (f g : List (String × Nat) → List (String × Nat))
    (store : List (String × Node)) :
    mapLeafHist g (mapLeafHist f store) = mapLeafHist (fun h => g (f h)) store := by
  induction store using mapLeafHist.induct (f := f) with
  | case1 => simp [mapLeafHist]
  | case2 key c h rest ih => simp [mapLeafHist, ih]
  | case3 key ch rest ih1 ih2 => simp [mapLeafHist, ih1, ih2]

/-- Rewriting every histogram with the identity changes nothing. -/
theorem mapLeafHist_id (store : List (String × Node)) :
    mapLeafHist (fun h => h) store = store := by
  induction store using mapLeafHist.induct (f := fun h => h) with
  | case1 => simp [mapLeafHist]
  | case2 key c h rest ih => simp [mapLeafHist, ih]
  | case3 key ch rest ih1 ih2 => simp [mapLeafHist, ih1, ih2]

/-! ## Claim C9 -/

/-- C9: a leaf histogram rendered with value inspection enabled is the
histogram sorted by descending occurrence count and cut to the first
maxHistogramEntries entries (the source instantiates that bound with
-max_item_count-), ties broken by original insertion order (a stable
sort); in particular the histogram x:5, y:5, z:1 rendered with bound 2
yields exactly x:5, y:5 in that order.  The sort is a permutation, its
counts are descending, and each tie class keeps its insertion order. -/
theorem C9_histogram_render_order :
    (∀ (k : String) (c : Nat) (h : List (String × Nat)) (rest : List (String × Node)),
      (build_tree true ((k, .leaf c h) :: rest)).1
        = .leafLine k c (some (renderHist max_item_count h)) :: (build_tree true rest).1)
    ∧ (∀ h : List (String × Nat), renderHist max_item_count h
        = (sortByCountDesc h).take max_item_count)
    ∧ (∀ h : List (String × Nat), (sortByCountDesc h).Perm h)
    ∧ (∀ h : List (String × Nat), (sortByCountDesc h).Pairwise (fun a b => b.2 ≤ a.2))
    ∧ (∀ (h : List (String × Nat)) (n : Nat),
        (sortByCountDesc h).filter (fun p => p.2 == n) = h.filter (fun p => p.2 == n))
    ∧ renderHist 2 [("x", 5), ("y", 5), ("z", 1)] = [("x", 5), ("y", 5)] := by
  refine ⟨?_, ?_, sortByCountDesc_perm, sortByCountDesc_pairwise, sortByCountDesc_filter, ?_⟩
  · intro k c h rest
    simp [build_tree]
  · intro h
    rfl
  · rfl

/-! ## Claim C3 -/

/-- C3 counterexample: rendering does not leave the underlying tree
unchanged.  For a tree with one leaf whose histogram has 51 entries,
line 341 of the source (-value[1] = dict(sorted(...)[:max_item_count])-)
writes the truncated histogram back into the tree, so after -build_tree-
the tree differs from what it was. -/
theorem C3_render_counterexample :
    ¬ ((build_tree true [("k", Node.leaf 1 bigHist)]).2 = [("k", Node.leaf 1 bigHist)]) := by
  intro hEq
  have hlen := congrArg headHistLen hEq
  rw [build_tree_snd] at hlen
  have hsort : (sortByCountDesc bigHist).length = bigHist.length :=
    (sortByCountDesc_perm bigHist).length_eq
  have hbig : bigHist.length = 51 := by simp [bigHist]
  simp [mapLeafHist, headHistLen, renderHist, hsort, hbig, max_item_count] at hlen

/-- C3 amended: rendering the accumulated tree with -build_tree- keeps
every leaf count and the Branch/Leaf structure intact, but, when value
inspection is enabled, it replaces each leaf histogram inside the
underlying tree by its sorted-and-truncated rendering (so entries past
the first -max_item_count- are discarded from the tree as well, not only
from the rendered view); with value inspection disabled the tree is
unchanged. -/
theorem C3_render_updates_tree :
    (∀ store : List (String × Node),
      (build_tree true store).2 = mapLeafHist (renderHist max_item_count) store)
    ∧ (∀ store : List (String × Node), (build_tree false store).2 = store)
    ∧ (∀ (i : Bool) (store : List (String × Node)),
      eraseHists ((build_tree i store).2) = eraseHists store) := by
  refine ⟨?_, ?_, ?_⟩
  · intro store
    exact build_tree_snd true store
  · intro store
    rw [build_tree_snd false store]
    exact mapLeafHist_id store
  · intro i store
    rw [build_tree_snd i store]
    unfold eraseHists
    rw [mapLeafHist_comp]

/-! ## Lemmas about the cursor derivation -/

/-- A list is a prefix of itself followed by anything. -/
theorem isPrefixOf_append_self (l t : List Char) : l.isPrefixOf (l ++ t) = true := by
  induction l with
  | nil => simp [List.isPrefixOf]
  | cons c cs ih => simp [List.isPrefixOf, ih]

/-- Splitting a string that starts with the separator cuts right there. -/
theorem pySplit_append_self (sep t : List Char) (hsep : sep ≠ []) :
    pySplit sep (sep ++ t) = [] :: pySplit sep t := by
  rcases sep with _ | ⟨a, sep2⟩
  · exact absurd rfl hsep
  · have hpre : (a :: sep2).isPrefixOf (a :: (sep2 ++ t)) = true := by
      rw [← List.cons_append]
      exact isPrefixOf_append_self _ _
    rw [List.cons_append]
    simp only [pySplit, hpre, List.isEmpty_cons, Bool.not_false, Bool.true_and, if_pos]
    rw [List.length_cons, Nat.add_sub_cancel, List.drop_left]

/-- Splitting on a separator that occurs nowhere returns the whole
string as the only part. -/
theorem pySplit_no_occurrence (sep s : List Char) (h : occursSub sep s = false) :
    pySplit sep s = [s] := by
  induction s with
  | nil => simp [pySplit]
  | cons c rest ih =>
    simp only [occursSub, Bool.or_eq_false_iff] at h
    obtain ⟨h1, h2⟩ := h
    simp [pySplit, h1, ih h2]

/-- -lstrip("/")- does nothing to a string that does not start with a
path separator. -/
theorem lstrip_slash_no_slash (rest : List Char) (h : rest.head? ≠ some '/') :
    lstrip_slash rest = rest := by
  rcases rest with _ | ⟨c, t⟩
  · rfl
  · have hc : ¬ c = '/' := by
      intro hEq
      exact h (by simp [hEq])
    simp [lstrip_slash, List.dropWhile_cons, hc]

/-! ## Claim C4 -/

/-- C4 counterexample: for the link "b//x" and the implementation base
URL "b" the claim prescribes the cursor "/x" (the link with the prefix
and one leading path separator removed), but line 188 of the source
(-link.url.split(base)[-1].lstrip("/")-) strips every leading slash and
produces "x". -/
theorem C4_cursor_counterexample :
    derive_next_chars ['b', '/', '/', 'x'] ['b'] ≠ ['/', 'x']
    ∧ derive_next_chars ['b', '/', '/', 'x'] ['b'] = ['x'] := by
  constructor
  · simp [derive_next_chars, pySplit, lstrip_slash, List.isPrefixOf]
  · simp [derive_next_chars, pySplit, lstrip_slash, List.isPrefixOf]

/-- C4 amended: the next cursor is the part of the link after the last
occurrence of the implementation base URL, with every leading path
separator removed.  Whenever the base URL is a non-empty prefix of the
link, occurs nowhere later in it, and is followed by at most one "/",
this coincides with removing the prefix and one leading "/". -/
theorem C4_cursor_derivation :
    (∀ (base rest : List Char), base ≠ [] → occursSub base rest = false →
      derive_next_chars (base ++ rest) base = lstrip_slash rest)
    ∧ (∀ (base rest : List Char), base ≠ [] → occursSub base ('/' :: rest) = false →
      rest.head? ≠ some '/' →
      derive_next_chars (base ++ '/' :: rest) base = rest) := by
  have main : ∀ (base rest : List Char), base ≠ [] → occursSub base rest = false →
      derive_next_chars (base ++ rest) base = lstrip_slash rest := by
    intro base rest hne hocc
    unfold derive_next_chars
    rw [pySplit_append_self base rest hne, pySplit_no_occurrence base rest hocc]
    rfl
  refine ⟨main, ?_⟩
  intro base rest hne hocc hhd
  rw [main base ('/' :: rest) hne hocc]
  have : lstrip_slash ('/' :: rest) = lstrip_slash rest := by
    simp [lstrip_slash, List.dropWhile_cons]
  rw [this, lstrip_slash_no_slash rest hhd]

/-- C4 witness: the amended derivation evaluated for the base URL "b"
and the link "b/x". -/
theorem C4_cursor_witness : derive_next_chars (['b'] ++ '/' :: ['x']) ['b'] = ['x'] :=
  C4_cursor_derivation.2 ['b'] ['x'] (by decide) (by decide) (by decide)

/-! ## Lemmas about store_item -/

/-- Incrementing a histogram key stores one more occurrence under it. -/
theorem dictGet_histIncr (s : String) (h : List (String × Nat)) :
    dictGet s (histIncr s h) = some ((dictGet s h).getD 0 + 1) := by
  induction h with
  | nil => simp [histIncr, dictGet]
  | cons p rest ih =>
    obtain ⟨k, n⟩ := p
    by_cases hk : (k == s) = true
    · simp [histIncr, dictGet, hk]
    · simp [histIncr, dictGet, hk, ih]

/-! ## Claim C8 -/

/-- C8 counterexample: a 51-character string exceeds the advertised
50-character bound but is stored untruncated, because line 301 of the
source truncates only strings longer than -max_item_str_len + 3- (53)
characters. -/
theorem C8_truncation_counterexample :
    store_item true "k" (.prim s51) [] = some [("k", Node.leaf 1 [(s51, 1)])]
    ∧ s51.length = 51
    ∧ max_item_str_len = 50
    ∧ truncateItemStr s51 = s51
    ∧ s51 ≠ strTake s51 max_item_str_len ++ "..." := by
  refine ⟨rfl, rfl, rfl, rfl, by decide⟩

/-- C8 amended: a leaf occurrence folded with value inspection enabled
renders the element to its string form; the rendered string is stored
unchanged as the histogram key when its length is at most
-max_item_str_len + 3- (53), and otherwise is cut to its first
-max_item_str_len- (50) characters with the ellipsis marker "..."
appended (so the stored key then has exactly 53 characters); the matching
histogram count is incremented by 1 and the leaf count by 1. -/
theorem C8_value_truncation :
    (∀ s : String, s.length ≤ max_item_str_len + 3 → truncateItemStr s = s)
    ∧ (∀ s : String, s.length > max_item_str_len + 3 →
        truncateItemStr s = strTake s max_item_str_len ++ "..."
        ∧ (truncateItemStr s).length = max_item_str_len + 3)
    ∧ (∀ (k : String) (v : JValue) (store : List (String × Node)) (c : Nat)
        (h : List (String × Nat)), dictGet k store = some (.leaf c h) →
        store_item true k v store
          = some (dictSet k (.leaf (c + 1) (histIncr (truncateItemStr (pyStr v)) h)) store))
    ∧ (∀ (s : String) (h : List (String × Nat)),
        dictGet s (histIncr s h) = some ((dictGet s h).getD 0 + 1)) := by
  refine ⟨?_, ?_, ?_, dictGet_histIncr⟩
  · intro s hs
    unfold truncateItemStr
    rw [if_neg (by omega)]
  · intro s hs
    have heq : truncateItemStr s = strTake s max_item_str_len ++ "..." := by
      unfold truncateItemStr
      rw [if_pos hs]
    refine ⟨heq, ?_⟩
    rw [heq]
    have hdata : s.length = s.data.length := rfl
    have h1 : (strTake s max_item_str_len).length = max_item_str_len := by
      simp only [strTake, String.length_mk, List.length_take]
      unfold max_item_str_len
      unfold max_item_str_len at hs
      omega
    rw [String.length_append, h1]
    rfl
  · intro k v store c h hget
    simp [store_item, hget]

/-- C8 witness: the amended truncation rule evaluated at a 2-character
string, at a 54-character string, and at one leaf occurrence folded into
an established leaf. -/
theorem C8_truncation_witness :
    truncateItemStr "ab" = "ab"
    ∧ truncateItemStr (String.mk (List.replicate 54 'a'))
        = strTake (String.mk (List.replicate 54 'a')) max_item_str_len ++ "..."
    ∧ store_item true "k" (.prim "v") [("k", Node.leaf 2 [])]
        = some (dictSet "k"
            (Node.leaf (2 + 1) (histIncr (truncateItemStr (pyStr (.prim "v"))) []))
            [("k", Node.leaf 2 [])]) :=
  ⟨C8_value_truncation.1 "ab" (by decide),
   (C8_value_truncation.2.1 (String.mk (List.replicate 54 'a')) (by decide)).1,
   C8_value_truncation.2.2.1 "k" (.prim "v") [("k", Node.leaf 2 [])] 2 [] rfl⟩

/-! ## Claim C5 -/

/-- C5 counterexample: a fold operation can fail.  After the record
a: 1 has established a Leaf at "a", folding the record a: (b: 2) with
the nesting limit not yet reached makes lines 315317 of the source
recurse into the Python list -[count, histogram]- as if it were a
dictionary, which raises a TypeError: the opposite shape is not folded
into the established node. -/
theorem C5_kind_counterexample :
    process_entry false 5 [("a", .obj [("b", .prim "2")])] [("a", Node.leaf 1 [])] 0
      = none := by
  rfl

/-- C5 amended: the first occurrence at a path fixes the node kind, and a
nested object arriving at an established Leaf at or beyond the nesting
limit collapses into that Leaf (its count is incremented; the nesting
limit takes precedence over object shape).  But the other mixed-shape
folds fail: a nested object with at least one real element arriving at an
established Leaf below the nesting limit, and a non-object element (or an
object at or beyond the limit) arriving at an established Branch, raise
an uncaught exception, embedded as -none-. -/
theorem C5_node_kind_transitions :
    (∀ (i : Bool) (maxL : Nat) (k : String) (fs : List (String × JValue))
        (store : List (String × Node)) (c : Nat) (h : List (String × Nat)) (level : Nat),
      dictGet k store = some (.leaf c h) → maxL ≤ level →
      ∃ h2, processElem i maxL k (.obj fs) store level
        = some (dictSet k (.leaf (c + 1) h2) store))
    ∧ (∀ (i : Bool) (maxL : Nat) (k : String) (fs : List (String × JValue))
        (store : List (String × Node)) (c : Nat) (h : List (String × Nat)) (level : Nat),
      dictGet k store = some (.leaf c h) → level < maxL →
      (∃ f ∈ fs, isEmptyArr f.2 = false) →
      processElem i maxL k (.obj fs) store level = none)
    ∧ (∀ (i : Bool) (k : String) (e : JValue) (store : List (String × Node))
        (ch : List (String × Node)),
      dictGet k store = some (.branch ch) →
      store_item i k e store = none)
    ∧ (∀ (i : Bool) (maxL : Nat) (k s : String) (store : List (String × Node))
        (ch : List (String × Node)) (level : Nat),
      dictGet k store = some (.branch ch) →
      processElem i maxL k (.prim s) store level = none) := by
  refine ⟨?_, ?_, ?_, ?_⟩
  · intro i maxL k fs store c h level hget hmax
    have hnl : ¬ level < maxL := Nat.not_lt.mpr hmax
    refine ⟨if i then histIncr (truncateItemStr (pyStr (.obj fs))) h else h, ?_⟩
    simp [processElem, hnl, store_item, hget]
  · intro i maxL k fs store c h level hget hlt hex
    have hall : fs.all (fun f => isEmptyArr f.2) = false := by
      rw [List.all_eq_false]
      obtain ⟨f, hf, hfe⟩ := hex
      exact ⟨f, hf, by simp [hfe]⟩
    simp [processElem, hlt, hget, hall]
  · intro i k e store ch hget
    simp [store_item, hget]
  · intro i maxL k s store ch level hget
    simp [processElem, store_item, hget]

/-- C5 witness: the amended kind transitions evaluated at an established
Leaf reached by an object at the nesting limit (collapse succeeds), at an
established Leaf reached by a real object below the limit (fold fails),
and at an established Branch reached by a scalar (fold fails). -/
theorem C5_kind_witness :
    (∃ h2, processElem false 0 "a" (.obj []) [("a", Node.leaf 2 [])] 0
      = some (dictSet "a" (Node.leaf (2 + 1) h2) [("a", Node.leaf 2 [])]))
    ∧ processElem false 5 "a" (.obj [("b", .prim "1")]) [("a", Node.leaf 1 [])] 0 = none
    ∧ store_item false "k" (.prim "s") [("k", Node.branch [])] = none :=
  ⟨C5_node_kind_transitions.1 false 0 "a" [] [("a", Node.leaf 2 [])] 2 [] 0 rfl
      (Nat.le_refl 0),
   C5_node_kind_transitions.2.1 false 5 "a" [("b", .prim "1")] [("a", Node.leaf 1 [])] 1 [] 0
      rfl (by decide) ⟨("b", .prim "1"), by simp, rfl⟩,
   C5_node_kind_transitions.2.2.1 false "k" (.prim "s") [("k", Node.branch [])] [] rfl⟩

/-! ## Claim C7 -/

/-- C7: a nested object element is recursed into as a Branch only while
the current level is below the nesting limit (the Branch child is created
on first occurrence and reused afterwards), and otherwise is handed to
-store_item- as a single Leaf occurrence; in particular the record
a: (b: (c: 1)) folded into an empty tree with the limit 1 yields a Branch
at "a" whose child "b" is a Leaf with count 1, not a Branch. -/
theorem C7_depth_limiting :
    (∀ (i : Bool) (maxL : Nat) (k : String) (fs : List (String × JValue))
        (store : List (String × Node)) (level : Nat), maxL ≤ level →
      processElem i maxL k (.obj fs) store level = store_item i k (.obj fs) store)
    ∧ (∀ (i : Bool) (maxL : Nat) (k : String) (fs : List (String × JValue))
        (store : List (String × Node)) (level : Nat), level < maxL →
      dictGet k store = none →
      processElem i maxL k (.obj fs) store level
        = (process_entry i maxL fs [] (level + 1)).map
            (fun ch2 => dictSet k (.branch ch2) store))
    ∧ (∀ (i : Bool) (maxL : Nat) (k : String) (fs : List (String × JValue))
        (store : List (String × Node)) (ch : List (String × Node)) (level : Nat),
      level < maxL → dictGet k store = some (.branch ch) →
      processElem i maxL k (.obj fs) store level
        = (process_entry i maxL fs ch (level + 1)).map
            (fun ch2 => dictSet k (.branch ch2) store))
    ∧ process_entry false 1 [("a", .obj [("b", .obj [("c", .prim "1")])])] [] 0
        = some [("a", Node.branch [("b", Node.leaf 1 [])])] := by
  refine ⟨?_, ?_, ?_, rfl⟩
  · intro i maxL k fs store level hmax
    have hnl : ¬ level < maxL := Nat.not_lt.mpr hmax
    simp [processElem, hnl]
  · intro i maxL k fs store level hlt hget
    simp only [processElem, if_pos hlt, hget]
    cases process_entry i maxL fs [] (level + 1) <;> simp
  · intro i maxL k fs store ch level hlt hget
    simp only [processElem, if_pos hlt, hget]
    cases process_entry i maxL fs ch (level + 1) <;> simp

/-- C7 witness: the depth rule evaluated at the nesting limit (the
object is stored as a Leaf occurrence) and below it (the object is
recursed into as a Branch). -/
theorem C7_depth_witness :
    processElem false 0 "a" (.obj [("b", .prim "1")]) [] 0
      = store_item false "a" (.obj [("b", .prim "1")]) []
    ∧ processElem false 3 "a" (.obj []) [] 0
      = (process_entry false 3 [] [] (0 + 1)).map (fun ch2 => dictSet "a" (.branch ch2) []) :=
  ⟨C7_depth_limiting.1 false 0 "a" [("b", .prim "1")] [] 0 (Nat.le_refl 0),
   C7_depth_limiting.2.1 false 3 "a" [] [] 0 (by decide) rfl⟩

/-! ## Claim C10 -/

/-- C10: an iteration whose decoded bundle has no entry list (such as a
relaxed-mode lossy page) leaves the received counter, the delivered
record trace and the progress trace unchanged, does not test the record
limit (the equation holds for every limit, also one that is already
reached), and continues the loop at the cursor derived from the "next"
link of the page. -/
theorem C10_entryless_page_step :
    ∀ (α : Type) (base : String) (limit : Option Nat) (links : List (String × String))
      (u : String) (rest : List (PageResult α)) (c : String) (st : LoopState α),
      nextUrlOf links = some u →
      fetchLoop base limit (.ok ⟨none, some links⟩ :: rest) c st
        = fetchLoop base limit rest (derive_next_url u base)
            ⟨st.received, st.delivered, st.progress, st.visited ++ [c]⟩ := by
  intro α base limit links u rest c st h
  obtain ⟨r0, d0, p0, v0⟩ := st
  simp [fetchLoop, scanLinks, h]

/-- C10 witness: the entry-less page step evaluated on a concrete page
whose link list carries a "next" relation, under a record limit of 0
that the received counter already exceeds. -/
theorem C10_entryless_witness :
    fetchLoop "b" (some 0) [.ok ⟨none, some [("next", "u")]⟩] "c"
        (⟨5, [1], [2], ["x"]⟩ : LoopState Nat)
      = fetchLoop "b" (some 0) [] (derive_next_url "u" "b") ⟨5, [1], [2], ["x"] ++ ["c"]⟩ :=
  C10_entryless_page_step Nat "b" (some 0) [("next", "u")] "u" [] "c" ⟨5, [1], [2], ["x"]⟩ rfl

/-! ## Lemmas about the fetch loop -/

/-- When the loop breaks on the record limit, the final received count
exceeds the limit by at most the entry count of one scripted page. -/
theorem fetchLoop_limit_bound {α : Type} (base : String) (L : Nat) :
    ∀ (script : List (PageResult α)) (c : String) (st st2 : LoopState α),
      st.received ≤ L →
      fetchLoop base (some L) script c st = .done .limitReached st2 →
      ∃ resp ∈ script, st2.received ≤ L + okEntriesLen resp := by
  intro script
  induction script with
  | nil =>
    intro c st st2 hle h
    simp [fetchLoop] at h
  | cons resp rest ih =>
    intro c st st2 hle h
    obtain ⟨r0, d0, p0, v0⟩ := st
    have hle0 : r0 ≤ L := hle
    cases resp with
    | vError => simp [fetchLoop] at h
    | fatal => simp [fetchLoop] at h
    | ok page =>
      obtain ⟨entry, link⟩ := page
      cases entry with
      | none =>
        simp only [fetchLoop] at h
        cases hscan : scanLinks base link with
        | crash => rw [hscan] at h; simp at h
        | ended => rw [hscan] at h; simp at h
        | next c2 =>
          rw [hscan] at h
          obtain ⟨resp2, hmem, hbound⟩ := ih c2 ⟨r0, d0, p0, v0 ++ [c]⟩ st2 hle h
          exact ⟨resp2, List.mem_cons_of_mem _ hmem, hbound⟩
      | some es =>
        by_cases hl : L ≤ r0 + es.length
        · have hhit : limitHit (some L) (r0 + es.length) = true := by
            simp [limitHit, hl]
          simp only [fetchLoop, hhit, if_true, FetchOutcome.done.injEq, true_and] at h
          refine ⟨.ok ⟨some es, link⟩, List.mem_cons_self _ _, ?_⟩
          rw [← h]
          simp [okEntriesLen]
          omega
        · have hhit : limitHit (some L) (r0 + es.length) = false := by
            simp [limitHit, hl]
          simp only [fetchLoop, hhit, Bool.false_eq_true, if_false] at h
          cases hscan : scanLinks base link with
          | crash => rw [hscan] at h; simp at h
          | ended => rw [hscan] at h; simp at h
          | next c2 =>
            rw [hscan] at h
            have hle2 : r0 + es.length ≤ L := Nat.le_of_lt (Nat.lt_of_not_le hl)
            obtain ⟨resp2, hmem, hbound⟩ :=
              ih c2 ⟨r0 + es.length, d0 ++ es, p0 ++ [r0 + es.length], v0 ++ [c]⟩ st2 hle2 h
            exact ⟨resp2, List.mem_cons_of_mem _ hmem, hbound⟩

/-! ## Claim C2 -/

/-- C2: a decoded page with an entry list is always delivered in full, in
page order, and the received counter is increased by the page size,
before the limit test happens (the loop then stops exactly when the limit
is reached); with pages of sizes 5, 5, 5 and limit 7 the run delivers
exactly the 10 records of the first two pages, never 7; and whenever the
loop stops on the limit, the final received count exceeds the limit by at
most the entry count of one scripted page. -/
theorem C2_limit_after_full_page :
    (∀ (α : Type) (base : String) (L : Nat) (es : List α)
        (olinks : Option (List (String × String))) (rest : List (PageResult α))
        (c : String) (st : LoopState α),
      L ≤ st.received + es.length →
      fetchLoop base (some L) (.ok ⟨some es, olinks⟩ :: rest) c st
        = .done .limitReached
            ⟨st.received + es.length, st.delivered ++ es,
             st.progress ++ [st.received + es.length], st.visited ++ [c]⟩)
    ∧ (resultReceived (fetch_resources "b" "rt" (some 7) (.ok (some 15)) limitScript)
        = some 10
      ∧ resultDelivered (fetch_resources "b" "rt" (some 7) (.ok (some 15)) limitScript)
        = some [0, 1, 2, 3, 4, 5, 6, 7, 8, 9]
      ∧ resultExit (fetch_resources "b" "rt" (some 7) (.ok (some 15)) limitScript)
        = some .limitReached
      ∧ ¬ resultReceived (fetch_resources "b" "rt" (some 7) (.ok (some 15)) limitScript)
        = some 7)
    ∧ (∀ (α : Type) (base : String) (L : Nat) (script : List (PageResult α))
        (c : String) (st2 : LoopState α),
      fetchLoop base (some L) script c ⟨0, [], [], []⟩ = .done .limitReached st2 →
      ∃ resp ∈ script, st2.received ≤ L + okEntriesLen resp) := by
  refine ⟨?_, ⟨rfl, rfl, rfl, by decide⟩, ?_⟩
  · intro α base L es olinks rest c st hL
    obtain ⟨r0, d0, p0, v0⟩ := st
    have hL0 : L ≤ r0 + es.length := hL
    have hhit : limitHit (some L) (r0 + es.length) = true := by simp [limitHit, hL0]
    simp [fetchLoop, hhit]
  · intro α base L script c st2 h
    exact fetchLoop_limit_bound base L script c ⟨0, [], [], []⟩ st2 (Nat.zero_le L) h

/-- C2 witness: the full-page-then-test rule evaluated on a page of four
records under a limit of 3, and the bound evaluated on a one-page run
that stops on a limit of 1 with 2 records received. -/
theorem C2_limit_witness :
    (fetchLoop "b" (some 3) [.ok ⟨some [1, 2, 3, 4], some []⟩] "c"
        (⟨0, [], [], []⟩ : LoopState Nat)
      = .done .limitReached ⟨4, [1, 2, 3, 4], [4], ["c"]⟩)
    ∧ (∃ resp ∈ ([.ok ⟨some [1, 2], some []⟩] : List (PageResult Nat)),
        (2 : Nat) ≤ 1 + okEntriesLen resp) :=
  ⟨C2_limit_after_full_page.1 Nat "b" 3 [1, 2, 3, 4] (some []) [] "c" ⟨0, [], [], []⟩
      (by decide),
   C2_limit_after_full_page.2.2 Nat "b" 1 [.ok ⟨some [1, 2], some []⟩] "c"
      ⟨2, [1, 2], [2], ["c"]⟩ rfl⟩

/-- Running the loop without a limit over bundles that all carry entries
and a "next" link, followed by a validation error: the loop breaks at the
error with every prior record still delivered. -/
theorem fetchLoop_goods_vError {α : Type} (base : String) (rest : List (PageResult α)) :
    ∀ (goods : List (List α × List (String × String))) (c : String) (st : LoopState α),
      (∀ g ∈ goods, (nextUrlOf g.2).isSome) →
      ∃ prog vis,
        fetchLoop base none
            ((goods.map (fun g => PageResult.ok ⟨some g.1, some g.2⟩)) ++ .vError :: rest)
            c st
          = .done .validationFailed
              ⟨st.received + ((goods.map Prod.fst).flatten).length,
               st.delivered ++ (goods.map Prod.fst).flatten, prog, vis⟩ := by
  intro goods
  induction goods with
  | nil =>
    intro c st _
    obtain ⟨r0, d0, p0, v0⟩ := st
    exact ⟨p0, v0 ++ [c], by simp [fetchLoop]⟩
  | cons g gs ih =>
    intro c st hgood
    obtain ⟨u, hu⟩ := Option.isSome_iff_exists.mp (hgood g (List.mem_cons_self _ _))
    have hrest : ∀ g2 ∈ gs, (nextUrlOf g2.2).isSome :=
      fun g2 hg2 => hgood g2 (List.mem_cons_of_mem _ hg2)
    obtain ⟨r0, d0, p0, v0⟩ := st
    obtain ⟨prog, vis, hloop⟩ :=
      ih (derive_next_url u base)
        ⟨r0 + g.1.length, d0 ++ g.1, p0 ++ [r0 + g.1.length], v0 ++ [c]⟩ hrest
    refine ⟨prog, vis, ?_⟩
    simp only [List.map_cons, List.cons_append, fetchLoop, scanLinks, hu, limitHit,
      Bool.false_eq_true, if_false, List.append_eq]
    rw [hloop]
    simp [List.flatten_cons, Nat.add_assoc, List.append_assoc]

/-! ## Claim C1 -/

/-- C1 counterexample: with one bundle of two records delivered and then
a strict-mode validation failure, -fetch_resources- reports the failure
distinctly and keeps the delivered records, but it falls through to the
final result print and -return 0- (line 195 of the source): the run
returns the success status 0, not a failure status. -/
theorem C1_status_counterexample :
    resultStatus (fetch_resources "base" "rt" none (.ok (some 5))
        ([.ok ⟨some [1, 2], some [("next", "u")]⟩, .vError] : List (PageResult Nat)))
      = some 0
    ∧ resultDelivered (fetch_resources "base" "rt" none (.ok (some 5))
        ([.ok ⟨some [1, 2], some [("next", "u")]⟩, .vError] : List (PageResult Nat)))
      = some [1, 2]
    ∧ resultExit (fetch_resources "base" "rt" none (.ok (some 5))
        ([.ok ⟨some [1, 2], some [("next", "u")]⟩, .vError] : List (PageResult Nat)))
      = some .validationFailed
    ∧ ¬ resultStatus (fetch_resources "base" "rt" none (.ok (some 5))
        ([.ok ⟨some [1, 2], some [("next", "u")]⟩, .vError] : List (PageResult Nat)))
      = some 1 := by
  refine ⟨rfl, rfl, rfl, by decide⟩

/-- C1 amended: when a strict-mode page validation failure occurs after
any number of delivered pages, the loop reports it through the distinct
validation exit and terminates early, the sink keeps every record of the
prior pages, and -fetch_resources- returns the success status 0 (not a
failure status) while still exposing those partial results. -/
theorem C1_strict_validation_keeps_records :
    ∀ (α : Type) (base rt : String) (total : Option Nat)
      (goods : List (List α × List (String × String))) (rest : List (PageResult α)),
      (total == some 0) = false →
      (∀ g ∈ goods, (nextUrlOf g.2).isSome) →
      ∃ prog vis,
        fetch_resources base rt none (.ok total)
            ((goods.map (fun g => PageResult.ok ⟨some g.1, some g.2⟩)) ++ .vError :: rest)
          = .completed 0 .validationFailed
              ⟨((goods.map Prod.fst).flatten).length,
               (goods.map Prod.fst).flatten, prog, vis⟩ := by
  intro α base rt total goods rest htot hgood
  obtain ⟨prog, vis, hloop⟩ := fetchLoop_goods_vError base rest goods rt ⟨0, [], [], []⟩ hgood
  refine ⟨prog, vis, ?_⟩
  simp only [fetch_resources, htot, Bool.false_eq_true, if_false]
  rw [hloop]
  simp

/-- C1 witness: the amended statement evaluated for one delivered page of
two records followed by a validation failure. -/
theorem C1_strict_validation_witness :
    ∃ prog vis,
      fetch_resources "base" "rt" none (.ok (some 5))
          (([([1, 2], [("next", "u")])].map (fun g => PageResult.ok ⟨some g.1, some g.2⟩))
            ++ .vError :: ([] : List (PageResult Nat)))
        = .completed 0 .validationFailed ⟨2, [1, 2], prog, vis⟩ :=
  C1_strict_validation_keeps_records Nat "base" "rt" (some 5) [([1, 2], [("next", "u")])] []
    rfl (by intro g hg; rw [List.mem_singleton] at hg; subst hg; rfl)

/-- One loop iteration over a decoded bundle without entries whose links
carry a "next" relation: the loop continues at the derived cursor with
only the visited trace extended. -/
theorem fetchLoop_step_entryless {α : Type} (base : String) (limit : Option Nat)
    (links : List (String × String)) (u : String) (rest : List (PageResult α))
    (c : String) (r0 : Nat) (d0 : List α) (p0 : List Nat) (v0 : List String)
    (hu : nextUrlOf links = some u) :
    fetchLoop base limit (.ok ⟨none, some links⟩ :: rest) c ⟨r0, d0, p0, v0⟩
      = fetchLoop base limit rest (derive_next_url u base) ⟨r0, d0, p0, v0 ++ [c]⟩ := by
  simp [fetchLoop, scanLinks, hu]

/-- One loop iteration over a decoded bundle with entries, a "next" link,
and a limit that is not reached: the entries are delivered, the counters
advance, and the loop continues at the derived cursor. -/
theorem fetchLoop_step_page {α : Type} (base : String) (limit : Option Nat)
    (es : List α) (links : List (String × String)) (u : String) (rest : List (PageResult α))
    (c : String) (r0 : Nat) (d0 : List α) (p0 : List Nat) (v0 : List String)
    (hu : nextUrlOf links = some u)
    (hnl : limitHit limit (r0 + es.length) = false) :
    fetchLoop base limit (.ok ⟨some es, some links⟩ :: rest) c ⟨r0, d0, p0, v0⟩
      = fetchLoop base limit rest (derive_next_url u base)
          ⟨r0 + es.length, d0 ++ es, p0 ++ [r0 + es.length], v0 ++ [c]⟩ := by
  simp [fetchLoop, scanLinks, hu, hnl]

/-- The cursor chain of a bundle sequence whose every page but the last
carries a "next" relation has exactly one cursor per page. -/
theorem chainCursors_length {α : Type} (base : String) :
    ∀ (ps : List (Option (List α) × List (String × String))) (c : String),
      ps ≠ [] →
      (∀ p ∈ ps.dropLast, (nextUrlOf p.2).isSome) →
      (chainCursors (α := α) base c ps).length = ps.length := by
  intro ps
  induction ps with
  | nil => intro c h _; exact absurd rfl h
  | cons p rest ih =>
    intro c _ hinit
    cases rest with
    | nil => cases hnu : nextUrlOf p.2 <;> simp [chainCursors, hnu]
    | cons q rest2 =>
      have hp : (nextUrlOf p.2).isSome := hinit p (by simp [List.dropLast])
      obtain ⟨u, hu⟩ := Option.isSome_iff_exists.mp hp
      have hinit2 : ∀ p2 ∈ (q :: rest2).dropLast, (nextUrlOf p2.2).isSome := by
        intro p2 hp2
        apply hinit p2
        simp only [List.dropLast]
        exact List.mem_cons_of_mem _ hp2
      have hrec := ih (derive_next_url u base) (by simp) hinit2
      have hcc : chainCursors (α := α) base c (p :: q :: rest2)
          = c :: chainCursors (α := α) base (derive_next_url u base) (q :: rest2) := by
        simp [chainCursors, hu]
      rw [hcc]
      simp [hrec]

/-- Running the loop without a limit over a chain of decoded bundles in
which every page but the last carries a "next" relation and the last does
not: the loop consumes the whole chain, requesting exactly the derived
cursor sequence, and ends through the no-next exit. -/
theorem fetchLoop_chain {α : Type} (base : String) :
    ∀ (ps : List (Option (List α) × List (String × String))) (c : String) (st : LoopState α),
      ps ≠ [] →
      (∀ p ∈ ps.dropLast, (nextUrlOf p.2).isSome) →
      (∀ p0, ps.getLast? = some p0 → nextUrlOf p0.2 = none) →
      ∃ r d prog,
        fetchLoop base none (mkScript ps) c st
          = .done .noNext ⟨r, d, prog, st.visited ++ chainCursors (α := α) base c ps⟩ := by
  intro ps
  induction ps with
  | nil => intro c st h _ _; exact absurd rfl h
  | cons p rest ih =>
    intro c st _ hinit hlast
    obtain ⟨r0, d0, p0, v0⟩ := st
    cases rest with
    | nil =>
      have hl : nextUrlOf p.2 = none := hlast p (by simp)
      obtain ⟨entry, links⟩ := p
      cases entry with
      | none =>
        refine ⟨r0, d0, p0, ?_⟩
        simp [mkScript, fetchLoop, scanLinks, hl, chainCursors, limitHit]
      | some es =>
        refine ⟨r0 + es.length, d0 ++ es, p0 ++ [r0 + es.length], ?_⟩
        simp [mkScript, fetchLoop, scanLinks, hl, chainCursors, limitHit]
    | cons q rest2 =>
      have hp : (nextUrlOf p.2).isSome := hinit p (by simp [List.dropLast])
      obtain ⟨u, hu⟩ := Option.isSome_iff_exists.mp hp
      have hinit2 : ∀ p2 ∈ (q :: rest2).dropLast, (nextUrlOf p2.2).isSome := by
        intro p2 hp2
        apply hinit p2
        simp only [List.dropLast]
        exact List.mem_cons_of_mem _ hp2
      have hlast2 : ∀ p0, (q :: rest2).getLast? = some p0 → nextUrlOf p0.2 = none := by
        intro p0 hp0
        apply hlast p0
        rw [List.getLast?_cons_cons]
        exact hp0
      obtain ⟨entry, links⟩ := p
      have hu2 : nextUrlOf links = some u := hu
      have hcc : chainCursors (α := α) base c ((entry, links) :: q :: rest2)
          = c :: chainCursors (α := α) base (derive_next_url u base) (q :: rest2) := by
        simp [chainCursors, hu2]
      cases entry with
      | none =>
        obtain ⟨r, d, prog, hloop⟩ :=
          ih (derive_next_url u base) ⟨r0, d0, p0, v0 ++ [c]⟩ (by simp) hinit2 hlast2
        refine ⟨r, d, prog, ?_⟩
        simp only [mkScript, List.map_cons] at hloop ⊢
        rw [fetchLoop_step_entryless base none links u _ c r0 d0 p0 v0 hu2, hloop, hcc]
        simp [List.append_assoc]
      | some es =>
        obtain ⟨r, d, prog, hloop⟩ :=
          ih (derive_next_url u base)
            ⟨r0 + es.length, d0 ++ es, p0 ++ [r0 + es.length], v0 ++ [c]⟩
            (by simp) hinit2 hlast2
        refine ⟨r, d, prog, ?_⟩
        simp only [mkScript, List.map_cons] at hloop ⊢
        rw [fetchLoop_step_page base none es links u _ c r0 d0 p0 v0 hu2 rfl, hloop, hcc]
        simp [List.append_assoc]

/-! ## Claim C6 -/

/-- C6: over a finite bundle chain in which every page but the last
carries a "next" link and the last does not, the fetch loop visits every
page exactly once, requesting the cursors derived from the links in
order, and terminates through the no-next exit; and the only ways any
loop run can end in a break are the absence of a "next" relation, the
record limit, and the validation error (any other failure propagates as
an exception). -/
theorem C6_pagination_termination :
    (∀ (α : Type) (base rt : String) (ps : List (Option (List α) × List (String × String))),
      ps ≠ [] →
      (∀ p ∈ ps.dropLast, (nextUrlOf p.2).isSome) →
      (∀ p0, ps.getLast? = some p0 → nextUrlOf p0.2 = none) →
      ∃ r d prog,
        fetchLoop base none (mkScript ps) rt ⟨0, [], [], []⟩
          = .done .noNext ⟨r, d, prog, chainCursors (α := α) base rt ps⟩
        ∧ (chainCursors (α := α) base rt ps).length = ps.length)
    ∧ (∀ (α : Type) (base : String) (limit : Option Nat) (script : List (PageResult α))
        (c : String) (st st2 : LoopState α) (ex : LoopExit),
      fetchLoop base limit script c st = .done ex st2 →
      ex = .noNext ∨ ex = .limitReached ∨ ex = .validationFailed) := by
  constructor
  · intro α base rt ps hne hinit hlast
    obtain ⟨r, d, prog, hloop⟩ := fetchLoop_chain base ps rt ⟨0, [], [], []⟩ hne hinit hlast
    refine ⟨r, d, prog, ?_, chainCursors_length base ps rt hne hinit⟩
    simpa using hloop
  · intro α base limit script c st st2 ex _
    cases ex
    · exact Or.inl rfl
    · exact Or.inr (Or.inl rfl)
    · exact Or.inr (Or.inr rfl)

/-- C6 witness: the chain statement evaluated on a one-page chain whose
only page carries no "next" relation. -/
theorem C6_pagination_witness :
    ∃ r d prog,
      fetchLoop "b" none (mkScript [((some [1, 2] : Option (List Nat)), [("self", "s")])])
          "rt" ⟨0, [], [], []⟩
        = .done .noNext
            ⟨r, d, prog, chainCursors (α := Nat) "b" "rt" [(some [1, 2], [("self", "s")])]⟩
      ∧ (chainCursors (α := Nat) "b" "rt" [(some [1, 2], [("self", "s")])]).length
        = [((some [1, 2] : Option (List Nat)), [("self", "s")])].length :=
  C6_pagination_termination.1 Nat "b" "rt" [(some [1, 2], [("self", "s")])]
    (by simp) (by simp) (by intro p0 hp0; simp at hp0; subst hp0; rfl)

end FhirInspect
